import Mathlib

/- Shallow embedding of the structural patch engine of src/repo_code_changer.py:
   line buffers are lists of strings (each line keeping its terminator, as produced
   by readlines), and the three change handlers plus the change-set processor are
   translated function by function from the Python source. -/

namespace RepoChanger

/-- Whitespace characters recognized by the embedding of Python str.strip and
str.lstrip (the ASCII subset; rarer Unicode space characters are not modelled). -/
def isWsChar (c : Char) : Bool :=
  c = ' ' || c = '\t' || c = '\n' || c = '\r' || c = '\x0b' || c = '\x0c'

/-- Remove leading and trailing whitespace characters, as Python str.strip. -/
def stripChars (cs : List Char) : List Char :=
  ((cs.dropWhile isWsChar).reverse.dropWhile isWsChar).reverse

/-- Python line.strip on a whole string. -/
def pyStrip (s : String) : String := ⟨stripChars s.data⟩

/-- Python len(line) - len(line.lstrip()): the number of leading whitespace chars. -/
def indentOf (s : String) : Nat := (s.data.takeWhile isWsChar).length

/-- Substring test on character lists: does the haystack contain the pattern
as a contiguous run (Python "pat in hay")? -/
def hasSub (pat : List Char) : List Char → Bool
  | [] => pat.isPrefixOf []
  | c :: t => pat.isPrefixOf (c :: t) || hasSub pat t

/-- Python "pat in hay" on strings. -/
def strContains (hay pat : String) : Bool := hasSub pat.data hay.data

/-- Python s.count(c): number of occurrences of a character in a string. -/
def countChar (c : Char) (s : String) : Nat := s.data.count c

/-- Line-boundary characters recognized by the embedding of Python
str.splitlines (the single-character boundaries; a carriage return followed
by a newline counts as one boundary). -/
def isLineBreakChar (c : Char) : Bool :=
  c = '\n' || c = '\r' || c = '\x0b' || c = '\x0c' || c = '\x1c' || c = '\x1d' ||
  c = '\x1e' || c = '\x85' || c = '\u2028' || c = '\u2029'

/-- Worker for splitlines(True): accumulates the current (reversed) line and
emits it when a line boundary is consumed, boundary characters kept. -/
def slkGo (acc : List Char) : List Char → List (List Char)
  | [] => if acc = [] then [] else [acc.reverse]
  | '\r' :: '\n' :: rest => (acc.reverse ++ ['\r', '\n']) :: slkGo [] rest
  | c :: rest =>
    if isLineBreakChar c then (acc.reverse ++ [c]) :: slkGo [] rest
    else slkGo (c :: acc) rest

/-- Python code.splitlines(True): split into lines keeping the line boundaries;
no terminator is added to a final line that lacks one. -/
def splitlinesKeep (s : String) : List String := (slkGo [] s.data).map (fun cs => ⟨cs⟩)

/-- Concatenation of a list of lines back into one string, as f.writelines
materializes a buffer. -/
def strJoin (ls : List String) : String := ⟨(ls.map String.data).flatten⟩

/-- First index at or after j (in the ambient buffer) whose line satisfies p;
embeds the scan loops "for i, line in enumerate(lines): if ...: break". -/
def findIdxFrom (p : String → Bool) : List String → Nat → Option Nat
  | [], _ => none
  | l :: rest, j => if p l then some j else findIdxFrom p rest (j+1)

/-- First index in the buffer whose line satisfies p. -/
def findFirst (p : String → Bool) (lines : List String) : Option Nat :=
  findIdxFrom p lines 0

/-- Length of the run of leading whitespace characters. -/
def wsRun (cs : List Char) : Nat := (cs.takeWhile isWsChar).length

/-- Does a line contain an opening parenthesis after optional whitespace?
Embeds the closing part of the def-line regex: backslash-s-star then a
literal open parenthesis (the star is resolved greedily, which is exact
because the parenthesis is not itself whitespace). -/
def parenAfterWs (cs : List Char) : Bool :=
  match cs.dropWhile isWsChar with
  | '(' :: _ => true
  | _ => false

/-- Embedding of the compiled pattern of apply_python_function_change, namely
re.match of raw "def" + backslash-s-plus + re.escape(func_name) +
backslash-s-star + open parenthesis, applied to a stripped line: the line
starts with the letters def, then one or more whitespace characters (the
quantifier may stop at any of them, hence the bounded search), then the name
literally, then optional whitespace and an opening parenthesis. -/
def pyDefCore (name : List Char) : List Char → Bool
  | 'd' :: 'e' :: 'f' :: rest =>
    (List.range (wsRun rest)).any (fun k =>
      let after := rest.drop (k+1)
      name.isPrefixOf after && parenAfterWs (after.drop name.length))
  | _ => false

/-- The def-line test of apply_python_function_change: the regex is run against
line.strip(). -/
def pyDefTest (funcName line : String) : Bool :=
  pyDefCore funcName.data (stripChars line.data)

/-- Key used by the duplicate-line disambiguation: abs(x - (reference - 1)),
with the 1-based reference converted to a 0-based index. -/
def refDist (r : Int) (x : Nat) : Nat := ((x : Int) - (r - 1)).natAbs

/-- Embedding of Python min(best :: xs, key): the running best is replaced only
on a strictly smaller key, so the first element attaining the minimum wins. -/
def pyMinGo (key : Nat → Nat) (best : Nat) : List Nat → Nat
  | [] => best
  | x :: xs => if key x < key best then pyMinGo key x xs else pyMinGo key best xs

/-- Embedding of the list comprehension of apply_line_level_change: all indices
whose line, stripped, equals the stripped target line code. -/
def matchingIndices (lines : List String) (lineCode : String) : List Nat :=
  (List.range lines.length).filter
    (fun i => decide (pyStrip (lines.getD i "") = pyStrip lineCode))

/-- The line selection of apply_line_level_change: first match wins, except
that with more than one match and a truthy reference line number the match
nearest to reference - 1 is chosen (Python min, first-on-tie). -/
def locateLine (lines : List String) (lineCode : String) (ref : Option Int) : Option Nat :=
  match matchingIndices lines lineCode with
  | [] => none
  | m :: rest =>
    match ref with
    | some r => if rest ≠ [] ∧ r ≠ 0 then some (pyMinGo (refDist r) m rest) else some m
    | none => some m

/-- Python truthiness of an optional string: present and non-empty. -/
def truthyStr : Option String → Bool
  | none => false
  | some s => s != ""

/-- Embedding of apply_line_level_change. -/
def apply_line_level_change (lines : List String) (action : String)
    (newCode : Option String) (lineCode : Option String) (ref : Option Int) :
    List String :=
  if truthyStr lineCode then
    match locateLine lines (lineCode.getD "") ref with
    | none => lines
    | some i =>
      if action = "insert before" then
        if truthyStr newCode then
          lines.take i ++ splitlinesKeep (newCode.getD "") ++ lines.drop i
        else lines
      else if action = "insert after" then
        if truthyStr newCode then
          lines.take (i+1) ++ splitlinesKeep (newCode.getD "") ++ lines.drop (i+1)
        else lines
      else if action = "delete" then lines.take i ++ lines.drop (i+1)
      else if action = "replace" then
        if truthyStr newCode then
          lines.take i ++ splitlinesKeep (newCode.getD "") ++ lines.drop (i+1)
        else lines
      else lines
  else lines

/-- Does the stripped line start with an at sign (decorator test)? -/
def isDecoratorLine (l : String) : Bool :=
  match stripChars l.data with
  | '@' :: _ => true
  | _ => false

/-- Embedding of the decorator walk of apply_python_function_change: from the
def line at index i, walk upward while lines, stripped, start with an at sign;
the argument is the current 0-based scan position plus one (so 0 encodes the
scan having fallen off the top), and the accumulator holds the lowest decorator
index seen so far. -/
def decoGo (lines : List String) : Nat → Option Nat → Option Nat
  | 0, acc => acc
  | j+1, acc =>
    if isDecoratorLine (lines.getD j "") then decoGo lines j (some j) else acc

/-- The effective start of a Python function span: the first def-pattern line,
rebased to the topmost contiguous decorator line above it when one exists. -/
def pyLocate (lines : List String) (funcName : String) : Option Nat :=
  (findFirst (fun l => pyDefTest funcName l) lines).map
    (fun i => (decoGo lines i none).getD i)

/-- Embedding of the end scan of apply_python_function_change, walking the
buffer suffix that starts at position j: blank lines are skipped; the first
non-blank line with indentation at most funcIndent that is not a decorator
line ends the function at the previous index; reaching end of file ends it at
total - 1 (the last line of the buffer). -/
def pyEndGo (funcIndent : Nat) (total : Nat) : List String → Nat → Nat
  | [], _ => total - 1
  | l :: rest, j =>
    if stripChars l.data = [] then pyEndGo funcIndent total rest (j+1)
    else if indentOf l ≤ funcIndent ∧ isDecoratorLine l = false then j - 1
    else pyEndGo funcIndent total rest (j+1)

/-- The end index of a Python function span whose (decorator-adjusted) start is
startIdx; the indentation is taken from the line at startIdx, and the scan
starts at the following line, exactly as in the source. -/
def pyEnd (lines : List String) (startIdx : Nat) : Nat :=
  pyEndGo (indentOf (lines.getD startIdx "")) lines.length
    (lines.drop (startIdx+1)) (startIdx+1)

/-- The replace splice lines[:start] + new + lines[end+1:], shared by the
replace branches of the handlers. -/
def replaceSpan (lines : List String) (s e : Nat) (newLines : List String) :
    List String :=
  lines.take s ++ newLines ++ lines.drop (e+1)

/-- Embedding of apply_python_function_change. The source computes the insert
position of insert-before as decorator_start when that is not None and
start_idx otherwise, but start_idx has already been rebased to decorator_start
in that case, so the insert position is always the effective start. -/
def apply_python_function_change (lines : List String) (funcName action : String)
    (code : Option String) : List String :=
  match pyLocate lines funcName with
  | none => lines
  | some startIdx =>
    let endIdx := pyEnd lines startIdx
    if action = "insert before" then
      if truthyStr code then
        lines.take startIdx ++ splitlinesKeep (code.getD "") ++ lines.drop startIdx
      else lines
    else if action = "insert after" then
      if truthyStr code then
        lines.take (endIdx+1) ++ splitlinesKeep (code.getD "") ++ lines.drop (endIdx+1)
      else lines
    else if action = "delete" then lines.take startIdx ++ lines.drop (endIdx+1)
    else if action = "replace" then
      if truthyStr code then replaceSpan lines startIdx endIdx (splitlinesKeep (code.getD ""))
      else lines
    else lines

/-- The search pattern of apply_brace_delimited_function_change. -/
def bracePattern (funcName : String) : String := "function " ++ funcName ++ "("

/-- The start of a brace-delimited function span: the first line containing the
pattern as a substring. -/
def braceLocate (lines : List String) (funcName : String) : Option Nat :=
  findFirst (fun l => strContains l (bracePattern funcName)) lines

/-- One line of the brace scan: when the line contains an opening brace, add
the count of opening braces and set the found flag; then, when the line
contains a closing brace and the flag is set (including by this very line),
subtract the count of closing braces. -/
def braceStep (l : String) (depth : Int) (found : Bool) : Int × Bool :=
  let p := if strContains l ("\x7b") then ((depth + (countChar '\x7b' l : Int)), true)
           else (depth, found)
  let d2 := if strContains l ("\x7d") && p.2 then p.1 - (countChar '\x7d' l : Int) else p.1
  (d2, p.2)

/-- The brace scan of apply_brace_delimited_function_change over the buffer
suffix that starts at position j: stops with the current index when the found
flag is set and the running depth is exactly zero after processing a line;
returns none when the end of the buffer is reached without that happening. -/
def braceScanGo : List String → Int → Bool → Nat → Option Nat
  | [], _, _, _ => none
  | l :: rest, depth, found, j =>
    let s := braceStep l depth found
    if s.2 = true ∧ s.1 = 0 then some j else braceScanGo rest s.1 s.2 (j+1)

/-- The end of a brace-delimited function span starting at startIdx:
func_end_idx is initialized to start_idx and is only reassigned when the scan
breaks with the depth back at zero. -/
def braceEnd (lines : List String) (startIdx : Nat) : Nat :=
  (braceScanGo (lines.drop startIdx) 0 false startIdx).getD startIdx

/-- The replace branch of apply_brace_delimited_function_change as written in
the source: del lines[start:end+1], then splice the new lines at start. -/
def braceDeleteThenSplice (lines : List String) (s e : Nat)
    (newLines : List String) : List String :=
  (lines.take s ++ lines.drop (e+1)).take s ++ newLines ++
    (lines.take s ++ lines.drop (e+1)).drop s

/-- Embedding of apply_brace_delimited_function_change. Insert-before returns
before the brace scan runs; the remaining actions compute the end index first. -/
def apply_brace_delimited_function_change (lines : List String)
    (funcName action : String) (code : Option String) : List String :=
  match braceLocate lines funcName with
  | none => lines
  | some startIdx =>
    if action = "insert before" then
      match code with
      | some c => lines.take startIdx ++ splitlinesKeep c ++ lines.drop startIdx
      | none => lines
    else
      let endIdx := braceEnd lines startIdx
      if action = "insert after" then
        match code with
        | some c => lines.take (endIdx+1) ++ splitlinesKeep c ++ lines.drop (endIdx+1)
        | none => lines
      else if action = "delete" then lines.take startIdx ++ lines.drop (endIdx+1)
      else if action = "replace" then
        match code with
        | none => lines
        | some c => braceDeleteThenSplice lines startIdx endIdx (splitlinesKeep c)
      else lines

/-- Characters lowered by the embedding of Python str.lower (ASCII letters). -/
def lowerChar (c : Char) : Char :=
  if 'A' ≤ c ∧ c ≤ 'Z' then Char.ofNat (c.toNat + 32) else c

/-- Python action.lower(). -/
def lowerStr (s : String) : String := ⟨s.data.map lowerChar⟩

/-- The basename of a Posix path: everything after the last slash. -/
def afterLastSlash (cs : List Char) : List Char :=
  (cs.reverse.takeWhile (fun c => c != '/')).reverse

/-- Index of the rightmost dot in a character list, if any. -/
def lastDotIdx (cs : List Char) : Option Nat :=
  ((List.range cs.length).filter (fun i => decide (cs.getD i ' ' = '.'))).getLast?

/-- The extension part of os.path.splitext: the suffix of the basename from its
rightmost dot, unless every character before that dot is itself a dot (leading
dots mark a hidden file, not an extension). -/
def extOf (p : String) : String :=
  let base := afterLastSlash p.data
  match lastDotIdx base with
  | none => ""
  | some i =>
    if (base.take i).all (fun c => decide (c = '.')) then "" else ⟨base.drop i⟩

/-- JSON values as produced by json.loads (numbers modelled as integers, which
covers every field the change-set format uses). -/
inductive JValue where
  | jnull : JValue
  | jbool : Bool → JValue
  | jnum : Int → JValue
  | jstr : String → JValue
  | jarr : List JValue → JValue
  | jobj : List (String × JValue) → JValue

/-- Key lookup in a JSON object. -/
def jlookup (kvs : List (String × JValue)) (k : String) : Option JValue :=
  (kvs.find? (fun p => p.1 == k)).map (fun p => p.2)

/-- A JSON field read as a string, as the processor uses functionName,
lineCode, code, file and action (a present non-string value is treated as
absent). -/
def asStr : Option JValue → Option String
  | some (JValue.jstr s) => some s
  | _ => none

/-- A JSON field read as an integer (the lineNumber hint). -/
def asInt : Option JValue → Option Int
  | some (JValue.jnum n) => some n
  | _ => none

/-- os.path.join for the Posix paths the processor builds. -/
def joinPath (root rel : String) : String :=
  match rel.data with
  | '/' :: _ => rel
  | _ =>
    if root = "" then rel
    else
      match root.data.getLast? with
      | some '/' => root ++ rel
      | _ => root ++ "/" ++ rel

/-- The filesystem the processor mutates: a map from paths to file contents. -/
def FS : Type := String → Option String

/-- Writing a file back, fully overwriting it. -/
def fsWrite (fs : FS) (path contents : String) : FS :=
  fun p => if p = path then some contents else fs p

/-- Universal-newline translation performed by reading a file in text mode:
a carriage return, alone or followed by a newline, reads as a newline. -/
def nlTranslate : List Char → List Char
  | [] => []
  | '\r' :: '\n' :: rest => '\n' :: nlTranslate rest
  | '\r' :: rest => '\n' :: nlTranslate rest
  | c :: rest => c :: nlTranslate rest

/-- Worker for readlines: split translated content on newlines, keeping them. -/
def readLinesGo (acc : List Char) : List Char → List (List Char)
  | [] => if acc = [] then [] else [acc.reverse]
  | '\n' :: rest => (acc.reverse ++ ['\n']) :: readLinesGo [] rest
  | c :: rest => readLinesGo (c :: acc) rest

/-- Python f.readlines() on a text-mode file with the given raw contents. -/
def readLines (content : String) : List String :=
  (readLinesGo [] (nlTranslate content.data)).map (fun cs => ⟨cs⟩)

/-- Embedding of apply_function_level_change: dispatch on the file extension
when a function name is truthy; otherwise fall through to a line-level change
whose line code is the code argument, exactly as the source does. -/
def apply_function_level_change (lines : List String) (funcName : Option String)
    (action : String) (code : Option String) (fileExtension : String) :
    List String :=
  if truthyStr funcName then
    if fileExtension = ".py" then
      apply_python_function_change lines (funcName.getD "") action code
    else if fileExtension = ".php" ∨ fileExtension = ".js" then
      apply_brace_delimited_function_change lines (funcName.getD "") action code
    else lines
  else apply_line_level_change lines action code code none

/-- One iteration of the descriptor loop of apply_function_level_changes:
non-object descriptors and descriptors missing the file or action key are
skipped; a missing target file is skipped; otherwise the located handler runs
and the result is written back. A present file or action value that is not a
string makes CPython raise inside the loop; the embedding treats it as a skip,
which no claim depends on. -/
def processChange (root : String) (fs : FS) (change : JValue) : FS :=
  match change with
  | JValue.jobj kvs =>
    if (jlookup kvs "file").isSome ∧ (jlookup kvs "action").isSome then
      match asStr (jlookup kvs "file"), asStr (jlookup kvs "action") with
      | some fileRel, some action0 =>
        let funcName := asStr (jlookup kvs "functionName")
        let lineCode := asStr (jlookup kvs "lineCode")
        let lineNumber := asInt (jlookup kvs "lineNumber")
        let code := asStr (jlookup kvs "code")
        let action := lowerStr action0
        let target := joinPath root fileRel
        match fs target with
        | none => fs
        | some content =>
          let lines := readLines content
          if truthyStr funcName then
            fsWrite fs target
              (strJoin (apply_function_level_change lines funcName action code (extOf fileRel)))
          else if truthyStr lineCode then
            fsWrite fs target
              (strJoin (apply_line_level_change lines action code lineCode lineNumber))
          else fs
      | _, _ => fs
    else fs
  | _ => fs

/-- Embedding of apply_function_level_changes. The json.loads step is modelled
by taking the already-parsed optional JSON value: none stands for a
JSONDecodeError, on which the function returns before the loop, as it also
does when the parsed root is not an array. -/
def apply_function_level_changes (root : String) (fs : FS)
    (parsed : Option JValue) : FS :=
  match parsed with
  | none => fs
  | some (JValue.jarr changes) => changes.foldl (processChange root) fs
  | some _ => fs

/- Helper lemmas about the scan loops. -/

theorem findIdxFrom_add (p : String → Bool) (ls : List String) (a : Nat) :
    ∀ j, findIdxFrom p ls (a + j) = (findIdxFrom p ls j).map (fun x => a + x) := by
  induction ls with
  | nil => intro j; rfl
  | cons l rest ih =>
    intro j
    by_cases h : p l
    · simp [findIdxFrom, h]
    · simp only [findIdxFrom, h, if_false, Bool.false_eq_true]
      rw [show a + j + 1 = a + (j + 1) by omega]
      exact ih (j + 1)

theorem findIdxFrom_none (p : String → Bool) (ls : List String)
    (h : ∀ l ∈ ls, p l = false) : ∀ j, findIdxFrom p ls j = none := by
  induction ls with
  | nil => intro j; rfl
  | cons l rest ih =>
    intro j
    have hl : p l = false := h l (List.mem_cons_self l rest)
    simp only [findIdxFrom, hl, Bool.false_eq_true, if_false]
    exact ih (fun x hx => h x (List.mem_cons_of_mem l hx)) (j + 1)

theorem findIdxFrom_append (p : String → Bool) (xs ys : List String)
    (h : ∀ l ∈ xs, p l = false) :
    ∀ j, findIdxFrom p (xs ++ ys) j = findIdxFrom p ys (j + xs.length) := by
  induction xs with
  | nil => intro j; simp [findIdxFrom]
  | cons x xs ih =>
    intro j
    have hx : p x = false := h x (List.mem_cons_self x xs)
    simp only [List.cons_append, findIdxFrom, hx, Bool.false_eq_true, if_false,
      List.append_eq]
    rw [ih (fun l hl => h l (List.mem_cons_of_mem x hl)) (j + 1)]
    congr 1
    simp [List.length_cons]
    omega

theorem findFirst_spec (p : String → Bool) (ls : List String) (s : Nat)
    (h : findFirst p ls = some s) :
    s < ls.length ∧ p (ls.getD s "") = true ∧ ∀ l ∈ ls.take s, p l = false := by
  induction ls generalizing s with
  | nil => simp [findFirst, findIdxFrom] at h
  | cons l rest ih =>
    by_cases hl : p l
    · have hs : s = 0 := by
        simp only [findFirst, findIdxFrom, hl, if_true] at h
        exact (Option.some.inj h).symm
      subst hs
      exact ⟨by simp, by simpa using hl, by simp⟩
    · have h1 : findIdxFrom p rest 1 = some s := by
        simpa only [findFirst, findIdxFrom, hl, Bool.false_eq_true, if_false] using h
      have h2 : (findIdxFrom p rest 0).map (fun x => 1 + x) = some s := by
        rw [← findIdxFrom_add p rest 1 0]
        exact h1
      match hr : findIdxFrom p rest 0 with
      | none => rw [hr] at h2; simp at h2
      | some s0 =>
        rw [hr] at h2
        rw [show (some s0).map (fun x => 1 + x) = some (1 + s0) from rfl] at h2
        rw [Option.some.injEq] at h2
        obtain ⟨hlen, hp, hpre⟩ := ih s0 hr
        subst h2
        refine ⟨by simp [List.length_cons]; omega,
          by rw [show (1 : Nat) + s0 = s0 + 1 by omega, List.getD_cons_succ]; exact hp, ?_⟩
        intro x hx
        rw [show 1 + s0 = s0 + 1 by omega] at hx
        simp only [List.take_succ_cons, List.mem_cons] at hx
        cases hx with
        | inl hx => rw [hx]; exact eq_false_of_ne_true hl
        | inr hx => exact hpre x hx

theorem braceScanGo_cons (l : String) (rest : List String) (d : Int) (f : Bool)
    (j : Nat) :
    braceScanGo (l :: rest) d f j =
      if (braceStep l d f).2 = true ∧ (braceStep l d f).1 = 0 then some j
      else braceScanGo rest (braceStep l d f).1 (braceStep l d f).2 (j + 1) := rfl

theorem braceScanGo_add (ls : List String) :
    ∀ d f a j, braceScanGo ls d f (a + j) = (braceScanGo ls d f j).map (fun x => a + x) := by
  induction ls with
  | nil => intro d f a j; rfl
  | cons l rest ih =>
    intro d f a j
    rw [braceScanGo_cons, braceScanGo_cons]
    by_cases h : (braceStep l d f).2 = true ∧ (braceStep l d f).1 = 0
    · rw [if_pos h, if_pos h]
      rfl
    · rw [if_neg h, if_neg h]
      rw [show a + j + 1 = a + (j + 1) by omega]
      exact ih _ _ a (j + 1)

theorem braceScanGo_bounds (ls : List String) :
    ∀ d f j x, braceScanGo ls d f j = some x → j ≤ x ∧ x < j + ls.length := by
  induction ls with
  | nil => intro d f j x h; simp [braceScanGo] at h
  | cons l rest ih =>
    intro d f j x h
    rw [braceScanGo_cons] at h
    by_cases hc : (braceStep l d f).2 = true ∧ (braceStep l d f).1 = 0
    · rw [if_pos hc] at h
      cases Option.some.inj h
      simp [List.length_cons]
    · rw [if_neg hc] at h
      obtain ⟨h1, h2⟩ := ih _ _ (j + 1) x h
      constructor
      · omega
      · simp only [List.length_cons]
        omega

theorem pyMinGo_mem (key : Nat → Nat) :
    ∀ xs best, pyMinGo key best xs ∈ best :: xs := by
  intro xs
  induction xs with
  | nil => intro b; simp [pyMinGo]
  | cons x xs ih =>
    intro b
    by_cases h : key x < key b
    · simp only [pyMinGo, h, if_true]
      have hx := ih x
      simp only [List.mem_cons] at hx ⊢
      tauto
    · simp only [pyMinGo, h, if_false]
      have hb := ih b
      simp only [List.mem_cons] at hb ⊢
      tauto

theorem pyMinGo_min (key : Nat → Nat) :
    ∀ xs best z, z ∈ best :: xs → key (pyMinGo key best xs) ≤ key z := by
  intro xs
  induction xs with
  | nil =>
    intro b z hz
    simp only [List.mem_cons, List.not_mem_nil, or_false] at hz
    subst hz
    exact le_refl _
  | cons x xs ih =>
    intro b z hz
    simp only [List.mem_cons] at hz
    by_cases h : key x < key b
    · simp only [pyMinGo, h, if_true]
      rcases hz with hz | hz | hz
      · rw [hz]
        exact le_of_lt (lt_of_le_of_lt (ih x x (by simp)) h)
      · rw [hz]
        exact ih x x (by simp)
      · exact ih x z (List.mem_cons_of_mem x hz)
    · simp only [pyMinGo, h, if_false]
      rcases hz with hz | hz | hz
      · rw [hz]
        exact ih b b (by simp)
      · rw [hz]
        exact le_trans (ih b b (by simp)) (le_of_not_lt h)
      · exact ih b z (List.mem_cons_of_mem b hz)

theorem pyMinGo_eq_or_lt (key : Nat → Nat) :
    ∀ xs best, pyMinGo key best xs = best ∨ key (pyMinGo key best xs) < key best := by
  intro xs
  induction xs with
  | nil => intro b; left; rfl
  | cons x xs ih =>
    intro b
    by_cases h : key x < key b
    · simp only [pyMinGo, h, if_true]
      rcases ih x with h2 | h2
      · right; rw [h2]; exact h
      · right; exact lt_trans h2 h
    · simp only [pyMinGo, h, if_false]
      exact ih b

theorem pyMinGo_first_tie (key : Nat → Nat) :
    ∀ xs best, List.Pairwise (· < ·) (best :: xs) →
      ∀ z ∈ best :: xs, key z = key (pyMinGo key best xs) → pyMinGo key best xs ≤ z := by
  intro xs
  induction xs with
  | nil =>
    intro b _ z hz _
    simp only [List.mem_cons, List.not_mem_nil, or_false] at hz
    subst hz
    exact le_refl _
  | cons x xs ih =>
    intro b hp z hz hk
    rw [List.pairwise_cons] at hp
    obtain ⟨hb, hpx⟩ := hp
    by_cases h : key x < key b
    · simp only [pyMinGo, h, if_true] at hk ⊢
      simp only [List.mem_cons] at hz
      rcases hz with hz | hz
      · exfalso
        have h1 : key (pyMinGo key x xs) ≤ key x := pyMinGo_min key xs x x (by simp)
        subst hz
        omega
      · exact ih x hpx z (List.mem_cons.mpr hz) hk
    · simp only [pyMinGo, h, if_false] at hk ⊢
      have hpb : List.Pairwise (· < ·) (b :: xs) := by
        rw [List.pairwise_cons]
        exact ⟨fun w hw => hb w (List.mem_cons_of_mem x hw),
          (List.pairwise_cons.mp hpx).2⟩
      simp only [List.mem_cons] at hz
      rcases hz with hz | hz | hz
      · exact ih b hpb z (by rw [hz]; simp) hk
      · subst hz
        have h1 : key (pyMinGo key b xs) ≤ key b := pyMinGo_min key xs b b (by simp)
        rcases pyMinGo_eq_or_lt key xs b with h2 | h2
        · rw [h2]
          exact le_of_lt (hb z (by simp))
        · exfalso
          have h3 : key b ≤ key z := le_of_not_lt h
          omega
      · exact ih b hpb z (List.mem_cons_of_mem b hz) hk

theorem matchingIndices_sorted (lines : List String) (lineCode : String) :
    List.Pairwise (· < ·) (matchingIndices lines lineCode) :=
  (List.pairwise_lt_range _).filter _

/- Claim theorems. -/

/-- C1: the spec (and the claim) demand that deleting a decorated Python
function removes decorators, def line and body as one unit, giving the buffer
with only the trailing statement left. The code instead rebases the span start
to the decorator and then starts the end scan right after it, so the scan
stops at the def line itself and delete removes only the decorator line: on
the claim's buffer the result keeps the def line and the body, differing from
the expected single-line buffer. -/
theorem c1_decorated_delete_removes_only_decorator :
    apply_python_function_change ["@cache\n", "def bar():\n", "    return 1\n", "x = 2\n"]
        "bar" "delete" none =
      ["def bar():\n", "    return 1\n", "x = 2\n"] ∧
    (["def bar():\n", "    return 1\n", "x = 2\n"] : List String) ≠ ["x = 2\n"] := by
  decide

/-- C2 counterexample: with an opening brace whose depth never returns to
zero, the end of the span is the initialized start index, not the last scanned
line: delete removes only the signature line, not everything through the end
of the buffer. -/
theorem c2_counterexample :
    braceEnd ["function foo() \x7b\n", "a\n", "b\n"] 0 = 0 ∧ (0 : Nat) ≠ 2 ∧
    apply_brace_delimited_function_change ["function foo() \x7b\n", "a\n", "b\n"]
        "foo" "delete" none = ["a\n", "b\n"] := by
  decide

/-- C2 amended: when the line containing the function pattern is found but the
running brace depth never returns to zero before end of file, the span's end
is the start index itself (func_end_idx keeps its initialization), so delete
removes only the start line. -/
theorem c2_amended_unterminated_end_is_start (lines : List String)
    (funcName : String) (s : Nat) (code : Option String)
    (hloc : braceLocate lines funcName = some s)
    (hscan : braceScanGo (lines.drop s) 0 false s = none) :
    braceEnd lines s = s ∧
    apply_brace_delimited_function_change lines funcName "delete" code =
      lines.take s ++ lines.drop (s + 1) := by
  have he : braceEnd lines s = s := by simp [braceEnd, hscan]
  refine ⟨he, ?_⟩
  simp [apply_brace_delimited_function_change, hloc, he]

/-- C2 amended, witnessed at a two-line buffer whose brace never closes. -/
theorem c2_amended_witness :
    braceEnd ["function foo() \x7b\n", "a\n"] 0 = 0 ∧
    apply_brace_delimited_function_change ["function foo() \x7b\n", "a\n"]
        "foo" "delete" none =
      (["function foo() \x7b\n", "a\n"] : List String).take 0 ++
        (["function foo() \x7b\n", "a\n"] : List String).drop (0 + 1) :=
  c2_amended_unterminated_end_is_start ["function foo() \x7b\n", "a\n"] "foo" 0 none
    (by decide) (by decide)

/-- C5: when no line of the buffer matches the respective locator's name
pattern, both the indentation variant and the brace variant return the buffer
unchanged for every action and every code argument. -/
theorem c5_not_found_unchanged (lines : List String) (funcName action : String)
    (code : Option String)
    (hpy : ∀ l ∈ lines, pyDefTest funcName l = false)
    (hbr : ∀ l ∈ lines, strContains l (bracePattern funcName) = false) :
    apply_python_function_change lines funcName action code = lines ∧
    apply_brace_delimited_function_change lines funcName action code = lines := by
  constructor
  · simp [apply_python_function_change, pyLocate, findFirst,
      findIdxFrom_none _ _ hpy 0]
  · simp [apply_brace_delimited_function_change, braceLocate, findFirst,
      findIdxFrom_none _ _ hbr 0]

/-- C5 witnessed on a one-line buffer that contains no function at all. -/
theorem c5_witness :
    apply_python_function_change ["x = 1\n"] "foo" "delete" none = ["x = 1\n"] ∧
    apply_brace_delimited_function_change ["x = 1\n"] "foo" "delete" none = ["x = 1\n"] :=
  c5_not_found_unchanged ["x = 1\n"] "foo" "delete" none (by decide) (by decide)

/-- C6: when the change-set input fails to parse (modelled as none) or parses
to a JSON value that is not an array, the processor returns before the
descriptor loop, so every file of the filesystem is unchanged. -/
theorem c6_malformed_changeset_aborts (root : String) (fs : FS)
    (parsed : Option JValue)
    (h : parsed = none ∨ ∀ xs, parsed ≠ some (JValue.jarr xs)) :
    ∀ p, apply_function_level_changes root fs parsed p = fs p := by
  intro p
  cases h with
  | inl h => subst h; rfl
  | inr h =>
    match parsed with
    | none => rfl
    | some (JValue.jarr xs) => exact absurd rfl (h xs)
    | some JValue.jnull => rfl
    | some (JValue.jbool b) => rfl
    | some (JValue.jnum n) => rfl
    | some (JValue.jstr s) => rfl
    | some (JValue.jobj kvs) => rfl

/-- C6 witnessed on the spec's scenario: a JSON object root touches no file. -/
theorem c6_witness :
    apply_function_level_changes "repo"
      (fun q => if q = "repo/a.js" then some "function foo() \x7b\n\x7d\n" else none)
      (some (JValue.jobj [("not", JValue.jstr "an array")])) "repo/a.js" =
    (fun q => if q = "repo/a.js" then some "function foo() \x7b\n\x7d\n" else none)
      "repo/a.js" :=
  c6_malformed_changeset_aborts "repo"
    (fun q => if q = "repo/a.js" then some "function foo() \x7b\n\x7d\n" else none)
    (some (JValue.jobj [("not", JValue.jstr "an array")]))
    (Or.inr (by intro xs hxs; simp at hxs)) "repo/a.js"

/-- C9: an action string other than the four known ones leaves the buffer
unchanged in all three handlers, also when the target is located. -/
theorem c9_unknown_action_unchanged (action : String)
    (h1 : action ≠ "insert before") (h2 : action ≠ "insert after")
    (h3 : action ≠ "delete") (h4 : action ≠ "replace") :
    (∀ lines lineCode ref newCode i, locateLine lines lineCode ref = some i →
      apply_line_level_change lines action newCode (some lineCode) ref = lines) ∧
    (∀ lines funcName code s, pyLocate lines funcName = some s →
      apply_python_function_change lines funcName action code = lines) ∧
    (∀ lines funcName code s, braceLocate lines funcName = some s →
      apply_brace_delimited_function_change lines funcName action code = lines) := by
  refine ⟨?_, ?_, ?_⟩
  · intro lines lineCode ref newCode i hloc
    by_cases he : lineCode = ""
    · simp [apply_line_level_change, he, truthyStr]
    · simp [apply_line_level_change, truthyStr, he, hloc, h1, h2, h3, h4]
  · intro lines funcName code s h
    simp [apply_python_function_change, h, h1, h2, h3, h4]
  · intro lines funcName code s h
    simp [apply_brace_delimited_function_change, h, h1, h2, h3, h4]

/-- C9 witnessed with an unrecognized action on a located brace function. -/
theorem c9_witness :
    apply_brace_delimited_function_change ["function foo() \x7b\n", "\x7d\n"]
        "foo" "frobnicate" none = ["function foo() \x7b\n", "\x7d\n"] :=
  (c9_unknown_action_unchanged "frobnicate" (by decide) (by decide) (by decide)
      (by decide)).2.2
    ["function foo() \x7b\n", "\x7d\n"] "foo" none 0 (by decide)

/-- C10: in the brace variant, insert-before only needs the first line
containing the pattern: the code lines are spliced right before it, with no
hypothesis about braces ever balancing, because the handler returns before
the brace scan runs. -/
theorem c10_insert_before_no_brace_scan (lines : List String)
    (funcName c : String) (s : Nat)
    (h : braceLocate lines funcName = some s) :
    apply_brace_delimited_function_change lines funcName "insert before" (some c) =
      lines.take s ++ splitlinesKeep c ++ lines.drop s := by
  simp [apply_brace_delimited_function_change, h]

/-- C10 witnessed on a buffer whose braces never balance. -/
theorem c10_witness :
    apply_brace_delimited_function_change ["function foo() \x7b\n", "x\n"]
        "foo" "insert before" (some "a\n") =
      ["a\n", "function foo() \x7b\n", "x\n"] := by
  rw [c10_insert_before_no_brace_scan ["function foo() \x7b\n", "x\n"] "foo" "a\n" 0
    (by decide)]
  decide

/-- C3: with at least two distinct matching indices, the line locator with a
reference line number selects a matching index, that index minimizes the
absolute distance to reference - 1, and ties resolve to the earliest matching
index; with no reference it selects the earliest matching index. -/
theorem c3_locate_line_nearest (lines : List String) (lineCode : String)
    (r : Int) (i j : Nat) (hi : i ∈ matchingIndices lines lineCode)
    (hj : j ∈ matchingIndices lines lineCode) (hij : i ≠ j) :
    (∃ m, locateLine lines lineCode (some r) = some m ∧
      m ∈ matchingIndices lines lineCode ∧
      (∀ x ∈ matchingIndices lines lineCode, refDist r m ≤ refDist r x) ∧
      (∀ x ∈ matchingIndices lines lineCode, refDist r x = refDist r m → m ≤ x)) ∧
    (∃ m, locateLine lines lineCode none = some m ∧
      m ∈ matchingIndices lines lineCode ∧
      ∀ x ∈ matchingIndices lines lineCode, m ≤ x) := by
  match hms : matchingIndices lines lineCode with
  | [] =>
    rw [hms] at hi
    simp at hi
  | [m] =>
    rw [hms] at hi hj
    simp only [List.mem_cons, List.not_mem_nil, or_false] at hi hj
    exact absurd (hi.trans hj.symm) hij
  | m :: x :: rest =>
    have hsort : List.Pairwise (· < ·) (m :: x :: rest) := by
      rw [← hms]
      exact matchingIndices_sorted lines lineCode
    have hleast : ∀ z ∈ m :: x :: rest, m ≤ z := by
      intro z hz
      rcases List.mem_cons.mp hz with hz | hz
      · rw [hz]
      · exact le_of_lt ((List.pairwise_cons.mp hsort).1 z hz)
    have hd0 : ∀ z : Nat, refDist 0 z = z + 1 := by
      intro z
      unfold refDist
      omega
    constructor
    · by_cases hr : r = 0
      · refine ⟨m, by simp [locateLine, hms, hr], by simp, ?_, ?_⟩
        · intro z hz
          rw [hr, hd0, hd0]
          exact Nat.succ_le_succ (hleast z hz)
        · intro z hz hk
          rw [hr, hd0, hd0] at hk
          omega
      · refine ⟨pyMinGo (refDist r) m (x :: rest),
          by simp [locateLine, hms, hr], ?_, ?_, ?_⟩
        · exact pyMinGo_mem (refDist r) (x :: rest) m
        · intro z hz
          exact pyMinGo_min (refDist r) (x :: rest) m z hz
        · intro z hz hk
          exact pyMinGo_first_tie (refDist r) (x :: rest) m hsort z hz hk
    · refine ⟨m, by simp [locateLine, hms], by simp, ?_⟩
      intro z hz
      exact hleast z hz

/-- C3 witnessed on a buffer with matches at indices 0 and 2 and reference
line number 3 (0-based reference index 2). -/
theorem c3_witness :
    (0 : Nat) ∈ matchingIndices ["log\n", "q\n", "log\n"] "log" ∧
    (2 : Nat) ∈ matchingIndices ["log\n", "q\n", "log\n"] "log" ∧
    ((∃ m, locateLine ["log\n", "q\n", "log\n"] "log" (some 3) = some m ∧
        m ∈ matchingIndices ["log\n", "q\n", "log\n"] "log" ∧
        (∀ x ∈ matchingIndices ["log\n", "q\n", "log\n"] "log",
          refDist 3 m ≤ refDist 3 x) ∧
        (∀ x ∈ matchingIndices ["log\n", "q\n", "log\n"] "log",
          refDist 3 x = refDist 3 m → m ≤ x)) ∧
      (∃ m, locateLine ["log\n", "q\n", "log\n"] "log" none = some m ∧
        m ∈ matchingIndices ["log\n", "q\n", "log\n"] "log" ∧
        ∀ x ∈ matchingIndices ["log\n", "q\n", "log\n"] "log", m ≤ x)) :=
  ⟨by decide, by decide,
    c3_locate_line_nearest ["log\n", "q\n", "log\n"] "log" 3 0 2
      (by decide) (by decide) (by decide)⟩

/-- C4: the replace splice keeps every line before the span at its index and
every line after the span at its shifted index, and the delete-then-splice
form used by the brace handler computes the same buffer. -/
theorem c4_replace_frame (lines newLines : List String) (s e : Nat)
    (h1 : s ≤ e) (h2 : e < lines.length) :
    (∀ i, i < s → (replaceSpan lines s e newLines)[i]? = lines[i]?) ∧
    (∀ i, e < i → i < lines.length →
      (replaceSpan lines s e newLines)[i - (e - s + 1) + newLines.length]? =
        lines[i]?) ∧
    braceDeleteThenSplice lines s e newLines = replaceSpan lines s e newLines := by
  have hsl : s < lines.length := lt_of_le_of_lt h1 h2
  have hA : (lines.take s).length = s := by
    rw [List.length_take]
    omega
  refine ⟨?_, ?_, ?_⟩
  · intro i hi
    rw [show replaceSpan lines s e newLines =
      (lines.take s ++ newLines) ++ lines.drop (e+1) from rfl]
    have hAB : i < (lines.take s ++ newLines).length := by
      rw [List.length_append, hA]
      omega
    rw [List.getElem?_append, if_pos hAB]
    rw [List.getElem?_append, if_pos (by rw [hA]; omega)]
    rw [List.getElem?_take, if_pos hi]
  · intro i hie hiL
    rw [show replaceSpan lines s e newLines =
      (lines.take s ++ newLines) ++ lines.drop (e+1) from rfl]
    have hm : i - (e - s + 1) + newLines.length =
        (lines.take s ++ newLines).length + (i - (e+1)) := by
      rw [List.length_append, hA]
      omega
    rw [hm, List.getElem?_append_right (Nat.le_add_right _ _),
      Nat.add_sub_cancel_left, List.getElem?_drop,
      show e + 1 + (i - (e + 1)) = i by omega]
  · unfold braceDeleteThenSplice replaceSpan
    rw [List.take_left' hA, List.drop_left' hA]

/-- C4 witnessed on a three-line buffer whose middle line is replaced by two
new lines: the line before and the line after the span are preserved. -/
theorem c4_witness :
    (replaceSpan ["a\n", "b\n", "c\n"] 1 1 ["x\n", "y\n"])[0]? =
      (["a\n", "b\n", "c\n"] : List String)[0]? ∧
    (replaceSpan ["a\n", "b\n", "c\n"] 1 1 ["x\n", "y\n"])[2 - (1 - 1 + 1) + 2]? =
      (["a\n", "b\n", "c\n"] : List String)[2]? ∧
    braceDeleteThenSplice ["a\n", "b\n", "c\n"] 1 1 ["x\n", "y\n"] =
      replaceSpan ["a\n", "b\n", "c\n"] 1 1 ["x\n", "y\n"] := by
  have h := c4_replace_frame ["a\n", "b\n", "c\n"] ["x\n", "y\n"] 1 1
    (by decide) (by decide)
  exact ⟨h.1 0 (by decide), h.2.1 2 (by decide) (by decide), h.2.2⟩

set_option maxHeartbeats 1000000 in
theorem slkGo_flatten : ∀ acc cs, (slkGo acc cs).flatten = acc.reverse ++ cs := by
  intro acc cs
  induction acc, cs using slkGo.induct
  all_goals simp_all [slkGo]

theorem strJoin_splitlinesKeep (c : String) : strJoin (splitlinesKeep c) = c := by
  unfold strJoin splitlinesKeep
  rw [List.map_map]
  rw [show ((String.data ∘ fun cs => (⟨cs⟩ : String))) = id from rfl]
  rw [List.map_id]
  rw [slkGo_flatten [] c.data]
  rfl

/-- C7 counterexample: inserting code that lacks a trailing terminator does
not get one forced onto it, so the final inserted line merges with the
original target line when the buffer is materialized: the written text has the
comment and the signature on one line. -/
theorem c7_counterexample :
    apply_brace_delimited_function_change ["function foo() \x7b\n", "\x7d\n"]
        "foo" "insert before" (some "// c") =
      ["// c", "function foo() \x7b\n", "\x7d\n"] ∧
    splitlinesKeep (strJoin ["// c", "function foo() \x7b\n", "\x7d\n"]) =
      ["// cfunction foo() \x7b\n", "\x7d\n"] := by
  decide

/-- C7 amended: insert-before splits the code into lines preserving its
content exactly (embedded newlines kept, and no trailing terminator is forced
when the code lacks one, so such a final line merges with the target line on
materialization) and splices them immediately before the located start in all
three handlers; an absent code makes insert-before a no-op. -/
theorem c7_amended_insert_before (lines : List String) (funcName lc c : String)
    (ref : Option Int) :
    strJoin (splitlinesKeep c) = c ∧
    (∀ s, braceLocate lines funcName = some s →
      apply_brace_delimited_function_change lines funcName "insert before" (some c) =
        lines.take s ++ splitlinesKeep c ++ lines.drop s ∧
      apply_brace_delimited_function_change lines funcName "insert before" none =
        lines) ∧
    (∀ s, pyLocate lines funcName = some s →
      apply_python_function_change lines funcName "insert before" (some c) =
        lines.take s ++ splitlinesKeep c ++ lines.drop s ∧
      apply_python_function_change lines funcName "insert before" none = lines) ∧
    (∀ i, lc ≠ "" → locateLine lines lc ref = some i →
      apply_line_level_change lines "insert before" (some c) (some lc) ref =
        lines.take i ++ splitlinesKeep c ++ lines.drop i ∧
      apply_line_level_change lines "insert before" none (some lc) ref = lines) := by
  have hempty : splitlinesKeep "" = [] := rfl
  refine ⟨strJoin_splitlinesKeep c, ?_, ?_, ?_⟩
  · intro s h
    exact ⟨by simp [apply_brace_delimited_function_change, h],
      by simp [apply_brace_delimited_function_change, h]⟩
  · intro s h
    constructor
    · by_cases hc : c = ""
      · rw [hc, hempty]
        simp [apply_python_function_change, h, truthyStr]
      · simp [apply_python_function_change, h, truthyStr, hc]
    · simp [apply_python_function_change, h, truthyStr]
  · intro i hlc h
    constructor
    · by_cases hc : c = ""
      · rw [hc, hempty]
        simp [apply_line_level_change, truthyStr, hlc, h]
      · simp [apply_line_level_change, truthyStr, hlc, h, hc]
    · simp [apply_line_level_change, truthyStr, hlc, h]

/-- C7 amended, witnessed: content-preserving split of the terminator-less
code and the splice before the located line of the brace variant. -/
theorem c7_amended_witness :
    strJoin (splitlinesKeep "// c") = "// c" ∧
    apply_brace_delimited_function_change ["function foo() \x7b\n", "\x7d\n"]
        "foo" "insert before" (some "// c") =
      (["function foo() \x7b\n", "\x7d\n"] : List String).take 0 ++
        splitlinesKeep "// c" ++
        (["function foo() \x7b\n", "\x7d\n"] : List String).drop 0 :=
  have h := c7_amended_insert_before ["function foo() \x7b\n", "\x7d\n"] "foo" ""
    "// c" none
  ⟨h.1, (h.2.1 0 (by decide)).1⟩

theorem braceLocate_shifted (lines ins : List String) (funcName : String) (s : Nat)
    (hloc : braceLocate lines funcName = some s)
    (hins : ∀ l ∈ ins, strContains l (bracePattern funcName) = false) :
    braceLocate (lines.take s ++ ins ++ lines.drop s) funcName =
      some (s + ins.length) := by
  obtain ⟨hlen, hp, hpre⟩ :=
    findFirst_spec (fun l => strContains l (bracePattern funcName)) lines s hloc
  have htake : (lines.take s).length = s := by
    rw [List.length_take]
    omega
  have hp2 : strContains lines[s] (bracePattern funcName) = true := by
    rw [← List.getD_eq_getElem lines "" hlen]
    exact hp
  unfold braceLocate findFirst
  rw [show lines.take s ++ ins ++ lines.drop s =
    (lines.take s ++ ins) ++ lines.drop s from rfl]
  rw [findIdxFrom_append _ _ _ ?hpre 0]
  case hpre =>
    intro l hl
    rcases List.mem_append.mp hl with h | h
    · exact hpre l h
    · exact hins l h
  rw [show (0 : Nat) + (lines.take s ++ ins).length = s + ins.length from by
    rw [List.length_append, htake]; omega]
  rw [List.drop_eq_getElem_cons hlen]
  simp [findIdxFrom, hp2]

theorem braceEnd_shifted (lines ins : List String) (s : Nat)
    (hs : s ≤ lines.length) :
    braceEnd (lines.take s ++ ins ++ lines.drop s) (s + ins.length) =
      braceEnd lines s + ins.length := by
  have htake : (lines.take s).length = s := by
    rw [List.length_take]
    omega
  unfold braceEnd
  rw [show lines.take s ++ ins ++ lines.drop s =
    (lines.take s ++ ins) ++ lines.drop s from rfl]
  rw [List.drop_left' (by rw [List.length_append, htake])]
  rw [show s + ins.length = ins.length + s by omega]
  rw [braceScanGo_add]
  cases hsc : braceScanGo (lines.drop s) 0 false s with
  | none => simp; omega
  | some x => simp; omega

theorem braceEnd_lt (lines : List String) (s : Nat) (hs : s < lines.length) :
    braceEnd lines s < lines.length := by
  unfold braceEnd
  cases hsc : braceScanGo (lines.drop s) 0 false s with
  | none => simpa using hs
  | some x =>
    obtain ⟨h1, h2⟩ := braceScanGo_bounds (lines.drop s) 0 false s x hsc
    rw [List.length_drop] at h2
    simp only [Option.getD_some]
    omega

/-- C8 counterexample: on a two-line function, inserting one line before it
and then deleting the function leaves one line, not the original two: the
round trip does not restore the original line count. -/
theorem c8_counterexample :
    (apply_brace_delimited_function_change
        (apply_brace_delimited_function_change ["function foo() \x7b\n", "\x7d\n"]
          "foo" "insert before" (some "x\n"))
        "foo" "delete" none).length ≠
      (["function foo() \x7b\n", "\x7d\n"] : List String).length := by
  decide

/-- C8 amended: insert-before followed by delete of the re-located function
changes the line count by the number of inserted lines minus the size of the
function's span in the original buffer (the count is restored only when those
are equal); stated additively, final count plus the span's end plus one equals
the original count plus the inserted line count plus the span's start. The
inserted code is assumed not to contain the locator pattern, so re-location
finds the shifted original function. -/
theorem c8_amended_roundtrip (lines : List String) (funcName c : String)
    (code2 : Option String) (s : Nat)
    (hloc : braceLocate lines funcName = some s)
    (hc : ∀ l ∈ splitlinesKeep c, strContains l (bracePattern funcName) = false) :
    (apply_brace_delimited_function_change
        (apply_brace_delimited_function_change lines funcName "insert before"
          (some c))
        funcName "delete" code2).length + braceEnd lines s + 1 =
      lines.length + (splitlinesKeep c).length + s := by
  obtain ⟨hlen, hp, hpre⟩ :=
    findFirst_spec (fun l => strContains l (bracePattern funcName)) lines s hloc
  have htake : (lines.take s).length = s := by
    rw [List.length_take]
    omega
  have h1 : apply_brace_delimited_function_change lines funcName "insert before"
      (some c) = lines.take s ++ splitlinesKeep c ++ lines.drop s := by
    simp [apply_brace_delimited_function_change, hloc]
  rw [h1]
  have h2 := braceLocate_shifted lines (splitlinesKeep c) funcName s hloc hc
  have h3 := braceEnd_shifted lines (splitlinesKeep c) s (le_of_lt hlen)
  have hdel : apply_brace_delimited_function_change
      (lines.take s ++ splitlinesKeep c ++ lines.drop s) funcName "delete" code2 =
      (lines.take s ++ splitlinesKeep c ++ lines.drop s).take
          (s + (splitlinesKeep c).length) ++
        (lines.take s ++ splitlinesKeep c ++ lines.drop s).drop
          (braceEnd lines s + (splitlinesKeep c).length + 1) := by
    unfold apply_brace_delimited_function_change
    rw [h2]
    simp only [h3, String.reduceEq, reduceIte]
  rw [hdel]
  have hbound : braceEnd lines s < lines.length := braceEnd_lt lines s hlen
  have hAlen : (lines.take s ++ splitlinesKeep c ++ lines.drop s).length =
      lines.length + (splitlinesKeep c).length := by
    rw [List.length_append, List.length_append, htake, List.length_drop]
    omega
  rw [List.length_append, List.length_take, List.length_drop, hAlen]
  rw [Nat.min_eq_left (by omega)]
  omega

/-- C8 amended, witnessed: on the counterexample's buffer the final count 1
plus span end 1 plus 1 equals original count 2 plus 1 inserted line plus
span start 0. -/
theorem c8_amended_witness :
    (apply_brace_delimited_function_change
        (apply_brace_delimited_function_change ["function foo() \x7b\n", "\x7d\n"]
          "foo" "insert before" (some "x\n"))
        "foo" "delete" none).length +
      braceEnd ["function foo() \x7b\n", "\x7d\n"] 0 + 1 =
    (["function foo() \x7b\n", "\x7d\n"] : List String).length +
      (splitlinesKeep "x\n").length + 0 :=
  c8_amended_roundtrip ["function foo() \x7b\n", "\x7d\n"] "foo" "x\n" none 0
    (by decide) (by decide)

end RepoChanger
